import Mathlib

set_option maxRecDepth 100000

/-!
Shallow embedding of the tool-augmented agent runtime
(repository: personal-ai-agent; files: agent.py, server.py, slack.py,
meta_tools.py, utils.py, user_manager.py), together with theorems
settling the specification claims about it.

Conventions of the embedding:
* Python values appearing in parsed JSON are modelled by `PyVal`
  (numbers as integers; containers carry their elements).
* A Python function that may raise is modelled as returning
  `PyResult α`: `ok` for a normal return, `exn` for a raised
  exception.  The exact `str(e)` text of an exception is
  implementation detail of the Python runtime; the model carries an
  indicative message string instead.
* `json.loads` is an external library routine; it is modelled by a
  parameter `parse : String → Option ParsedCall` (`none` = the string
  is not valid JSON, i.e. `json.JSONDecodeError` is raised).  All
  theorems quantify over `parse`.
* External capability functions (Gmail, Calendar, ... wrappers) only
  matter through their name and call behaviour; a callable is
  modelled as a `Func`: its `__name__` paired with its behaviour on
  the bound arguments (raising modelled via `PyResult`).
-/

/-- Model of a Python/JSON value as produced by `json.loads`. -/
inductive PyVal where
  | str (s : String)
  | int (n : Int)
  | bool (b : Bool)
  | null
  | arr (elems : List PyVal)
  | obj (fields : List (String × PyVal))

/-- Result of running a Python computation: a value, or a raised exception
(modelled by an indicative message). -/
inductive PyResult (α : Type) where
  | ok (a : α)
  | exn (msg : String)
deriving DecidableEq

/-- A Python callable as seen by the execution engine: its `__name__` and its
behaviour when invoked with the (already JSON-decoded) arguments value.
Argument-binding failures of `func(**arguments)` happen inside the `try`
block of `run_tool`, exactly like exceptions raised by the function body, so
both are modelled by the behaviour returning `PyResult.exn`. -/
def Func : Type := String × (PyVal → PyResult String)

/-- Hashability of a Python value: `x in some_dict` raises `TypeError` when
`x` is a list or a dict. -/
def pyHashable : PyVal → Bool
  | .str _ => true
  | .int _ => true
  | .bool _ => true
  | .null => true
  | .arr _ => false
  | .obj _ => false

/-- The text `str(x)` / `f-string` rendering of a Python value.  Only the
hashable cases are ever reached by the modelled code (unhashable values
raise beforehand), so the container cases are abbreviated. -/
def pyFormat : PyVal → String
  | .str s => s
  | .int n => toString n
  | .bool b => if b then "True" else "False"
  | .null => "None"
  | .arr _ => "[...]"
  | .obj _ => "\x7b...\x7d"

/-- The fields of a JSON-decoded tool call that the code reads:
`tool_call.get("name")` and `tool_call.get("arguments")` (a field is `none`
when the key is absent from the decoded object). -/
structure ParsedCall where
  name : Option PyVal
  arguments : Option PyVal

/-- utils.py, `AgentUtils.run_tool` lines 60-65: the dict comprehension
`{f.__name__: f for f in functions}` keeps, for each name, the LAST function
with that name; looking up a key only succeeds on a string equal to a stored
name (Python string keys never compare equal to numbers/booleans/None). -/
def func_dict (functions : List Func) : PyVal → Option (PyVal → PyResult String)
  | .str s => (functions.reverse.find? (fun f => f.1 == s)).map Prod.snd
  | _ => none

/-- utils.py, `AgentUtils.run_tool` (lines 48-77).
`json.loads` failure and missing `"name"`/`"arguments"` keys raise out of
the function (there is no `try` around them); `function_name not in
func_dict` raises `TypeError` when the name value is unhashable; the actual
call `func(**arguments)` is wrapped and any failure becomes the
`"Error executing ..."` string. -/
def run_tool (parse : String → Option ParsedCall) (tool_call_json : String)
    (functions : List Func) : PyResult String :=
  match parse tool_call_json with
  | none => .exn "json.JSONDecodeError"
  | some tc =>
    match tc.name with
    | none => .exn "KeyError: name"
    | some fn =>
      match tc.arguments with
      | none => .exn "KeyError: arguments"
      | some args =>
        if pyHashable fn then
          match func_dict functions fn with
          | none => .ok ("Error: Function " ++ pyFormat fn ++ " not found")
          | some func =>
            match func args with
            | .ok r => .ok r
            | .exn e => .ok ("Error executing " ++ pyFormat fn ++ ": " ++ e)
        else .exn "TypeError: unhashable type"

/-- Helper: under the protocol assumptions (valid JSON, `name` and
`arguments` present, `name` hashable), `run_tool` always returns normally. -/
theorem run_tool_ok (parse : String → Option ParsedCall) (call : String)
    (functions : List Func) (tc : ParsedCall) (fn args : PyVal)
    (h1 : parse call = some tc) (h2 : tc.name = some fn)
    (h3 : tc.arguments = some args) (h4 : pyHashable fn = true) :
    ∃ r, run_tool parse call functions = .ok r := by
  obtain ⟨nm, ar⟩ := tc
  replace h2 : nm = some fn := h2
  replace h3 : ar = some args := h3
  subst h2; subst h3
  simp only [run_tool, h1]
  rw [if_pos h4]
  cases hfd : func_dict functions fn with
  | none => exact ⟨_, rfl⟩
  | some func =>
    cases hc : func args with
    | ok r => exact ⟨r, by simp [hc]⟩
    | exn e => exact ⟨"Error executing " ++ pyFormat fn ++ ": " ++ e, by simp [hc]⟩

/-- Interaction-memory entries.  agent.py records `agent_response` entries
and `tool_call` entries with keys `function_name`/`call`/`result`; slack.py
records `tool_call` entries with keys `function`/`result`. -/
inductive MemEntry where
  | agentResponse (content : String)
  | toolCallA (function_name : String) (call : String) (result : String)
  | toolCallS (function : String) (result : String)
deriving DecidableEq

/-- The value returned by a `MetaTools.get_*_tools` call (meta_tools.py):
a list of callables plus their rendered signatures text.  (The `category`
key is never read back, so it is omitted.) -/
structure ToolData where
  functions : List Func
  signatures : String

/-- Process-wide external inputs of the embedding.  The five `ToolData`
values are what the `MetaTools.get_*_tools` functions produce (their
signature text comes from `inspect`-based reflection over real callables);
`meta_tool_functions` / `initial_signatures` are the bootstrap tool list
and its rendered signatures; `create_system_prompt` is the prompt template
of agent.py/server.py, which depends on `datetime.now` at process start
and on `json.dumps` serialisation, and whose exact text none of the claims
depend on. -/
structure Env where
  gmailData : ToolData
  calendarData : ToolData
  contactsData : ToolData
  docsData : ToolData
  webData : ToolData
  meta_tool_functions : List Func
  initial_signatures : String
  create_system_prompt : List MemEntry → String → String

/-- agent.py lines 72-78 / server.py lines 35-41: the `meta_tool_map`
dictionary, looked up by category name. -/
def meta_tool_map (env : Env) (tool_category : String) : Option ToolData :=
  if tool_category = "gmail" then some env.gmailData
  else if tool_category = "calendar" then some env.calendarData
  else if tool_category = "contacts" then some env.contactsData
  else if tool_category = "docs" then some env.docsData
  else if tool_category = "web" then some env.webData
  else none

/-- The five category names that `meta_tool_map` knows. -/
def metaCategories : List String := ["gmail", "calendar", "contacts", "docs", "web"]

/-- State of the session tool set (`ToolManager.__init__`):
`loaded_tools` dict (insertion order), `available_functions` list,
`available_signatures` string. -/
structure ToolManager where
  loaded_tools : List (String × ToolData)
  available_functions : List Func
  available_signatures : String

/-- The `ToolManager()` / `reset_tools()` state: no loaded categories, only
the meta-tools available. -/
def initTM (env : Env) : ToolManager :=
  { loaded_tools := []
    available_functions := env.meta_tool_functions
    available_signatures := env.initial_signatures }

/-- agent.py `ToolManager.load_tools` (lines 69-89) = server.py lines 32-52.
The source tests `if tool_category not in self.loaded_tools:` first; the
branches are mirrored here with the membership test un-negated. -/
def load_tools (env : Env) (tm : ToolManager) (tool_category : String) :
    ToolManager × String :=
  if tool_category ∈ tm.loaded_tools.map Prod.fst then
    (tm, tool_category ++ " tools already loaded")
  else
    match meta_tool_map env tool_category with
    | some tool_data =>
      ({ loaded_tools := tm.loaded_tools ++ [(tool_category, tool_data)]
         available_functions := tm.available_functions ++ tool_data.functions
         available_signatures :=
           tm.available_signatures ++ "\n\n" ++ tool_data.signatures },
       "Loaded " ++ tool_category ++ " tools successfully")
    | none => (tm, "Unknown tool category: " ++ tool_category)

/-- Claim C3: loading a capability category is idempotent within a turn: a
second `load_tools(c)` call for an already-loaded category `c` leaves
`available_functions`, `available_signatures` and `loaded_tools` exactly
unchanged and reports that the tools are already loaded; an unknown
category name yields a descriptive failure string (and no exception: the
modelled function is total). -/
theorem C3_load_tools_idempotent (env : Env) (tm : ToolManager) (c : String) :
    (c ∈ tm.loaded_tools.map Prod.fst →
      load_tools env tm c = (tm, c ++ " tools already loaded")) ∧
    (c ∉ tm.loaded_tools.map Prod.fst → c ∉ metaCategories →
      load_tools env tm c = (tm, "Unknown tool category: " ++ c)) := by
  constructor
  · intro h
    simp [load_tools, h]
  · intro h hc
    simp only [metaCategories, List.mem_cons, List.not_mem_nil, or_false] at hc
    push_neg at hc
    obtain ⟨h1, h2, h3, h4, h5⟩ := hc
    simp [load_tools, h, meta_tool_map, h1, h2, h3, h4, h5]

/-- A dummy tool-data value used to instantiate witnesses. -/
def tdW : ToolData := { functions := [], signatures := "" }

/-- A concrete environment used to instantiate witnesses. -/
def envW : Env :=
  { gmailData := tdW, calendarData := tdW, contactsData := tdW
    docsData := tdW, webData := tdW
    meta_tool_functions := []
    initial_signatures := ""
    create_system_prompt := fun _ _ => "" }

/-- A tool-manager state with the gmail category already loaded. -/
def tmW : ToolManager :=
  { loaded_tools := [("gmail", tdW)], available_functions := [], available_signatures := "" }

theorem C3_load_tools_idempotent_witness :
    load_tools envW tmW "gmail" = (tmW, "gmail tools already loaded") ∧
    load_tools envW (initTM envW) "foo" = (initTM envW, "Unknown tool category: foo") :=
  ⟨(C3_load_tools_idempotent envW tmW "gmail").1 (by simp [tmW]),
   (C3_load_tools_idempotent envW (initTM envW) "foo").2 (by simp [initTM])
     (by simp [metaCategories])⟩

/-- Helper: once the call is decoded with a hashable name and arguments
present, `run_tool` reduces to the dispatch on `func_dict`. -/
theorem run_tool_resolved (parse : String → Option ParsedCall) (call : String)
    (functions : List Func) (tc : ParsedCall) (fn args : PyVal)
    (h1 : parse call = some tc) (h2 : tc.name = some fn)
    (h3 : tc.arguments = some args) (h4 : pyHashable fn = true) :
    run_tool parse call functions =
      match func_dict functions fn with
      | none => .ok ("Error: Function " ++ pyFormat fn ++ " not found")
      | some func =>
        match func args with
        | .ok r => .ok r
        | .exn e => .ok ("Error executing " ++ pyFormat fn ++ ": " ++ e) := by
  obtain ⟨nm, ar⟩ := tc
  replace h2 : nm = some fn := h2
  replace h3 : ar = some args := h3
  subst h2; subst h3
  simp only [run_tool, h1]
  rw [if_pos h4]

/-- A tool-call string that is valid JSON and has both required fields, but
whose `"name"` value is a JSON array. -/
def callC4 : String := "\x7b\"name\": [], \"arguments\": \x7b\x7d\x7d"

/-- Parse oracle for `callC4`: it decodes to an object with `name = []`
and `arguments = {}` (both fields present). -/
def parseC4 : String → Option ParsedCall := fun s =>
  if s = callC4 then
    some { name := some (PyVal.arr []), arguments := some (PyVal.obj []) }
  else none

/-- Claim C4 counterexample: a tool-call string that parses as JSON and
contains both a `name` and an `arguments` field on which `run_tool` raises
rather than returning a value: the membership test `function_name not in
func_dict` raises `TypeError` because the name value (a JSON array) is
unhashable. -/
theorem C4_counterexample :
    run_tool parseC4 callC4 [] = PyResult.exn "TypeError: unhashable type" := by
  rfl

/-- Claim C4 (amended): for every tool-call string that parses as JSON and
contains `name` and `arguments` fields WITH A HASHABLE NAME VALUE (in
particular a string, as the protocol prescribes), `run_tool` returns a
value and never raises: an unknown name yields the string
`"Error: Function {name} not found"`, and a function that raises yields a
failure string carrying the error text instead of propagating. -/
theorem C4_run_tool_never_raises (parse : String → Option ParsedCall)
    (call : String) (functions : List Func) (tc : ParsedCall) (fn args : PyVal)
    (h1 : parse call = some tc) (h2 : tc.name = some fn)
    (h3 : tc.arguments = some args) (h4 : pyHashable fn = true) :
    (∃ r, run_tool parse call functions = .ok r) ∧
    (func_dict functions fn = none →
      run_tool parse call functions =
        .ok ("Error: Function " ++ pyFormat fn ++ " not found")) ∧
    (∀ func, func_dict functions fn = some func → ∀ e, func args = .exn e →
      run_tool parse call functions =
        .ok ("Error executing " ++ pyFormat fn ++ ": " ++ e)) := by
  refine ⟨run_tool_ok parse call functions tc fn args h1 h2 h3 h4, ?_, ?_⟩
  · intro hfd
    rw [run_tool_resolved parse call functions tc fn args h1 h2 h3 h4, hfd]
  · intro func hfd e he
    rw [run_tool_resolved parse call functions tc fn args h1 h2 h3 h4, hfd]
    simp [he]

/-- A well-formed tool-call string naming a function that is not loaded. -/
def callC4ok : String := "\x7b\"name\": \"f\", \"arguments\": \x7b\x7d\x7d"

/-- Parse oracle for `callC4ok`. -/
def parseC4ok : String → Option ParsedCall := fun s =>
  if s = callC4ok then
    some { name := some (PyVal.str "f"), arguments := some (PyVal.obj []) }
  else none

theorem C4_run_tool_never_raises_witness :
    run_tool parseC4ok callC4ok [("g", fun _ => PyResult.exn "boom")] =
      PyResult.ok "Error: Function f not found" :=
  (C4_run_tool_never_raises parseC4ok callC4ok [("g", fun _ => PyResult.exn "boom")]
    { name := some (PyVal.str "f"), arguments := some (PyVal.obj []) }
    (PyVal.str "f") (PyVal.obj []) (by simp [parseC4ok]) rfl rfl rfl).2.1 rfl

/-- Index of the first occurrence of `needle` in `hay`, if any
(the leftmost position at which `needle` is a leading segment). -/
def subIndex (needle : List Char) : List Char → Option Nat
  | [] => if needle.isPrefixOf ([] : List Char) then some 0 else none
  | c :: rest =>
    if needle.isPrefixOf (c :: rest) then some 0
    else (subIndex needle rest).map (· + 1)

/-- The whitespace characters removed by Python `str.strip()`. -/
def pyIsSpace (c : Char) : Bool :=
  c = ' ' || c = '\t' || c = '\n' || c = '\r' || c = '\x0b' || c = '\x0c'

/-- Python `str.strip()` on a character list. -/
def pyStrip (l : List Char) : List Char :=
  ((l.dropWhile pyIsSpace).reverse.dropWhile pyIsSpace).reverse

/-- The opening marker of an invocation block. -/
def openTag : List Char := "<tool_call>".data

/-- The closing marker of an invocation block. -/
def closeTag : List Char := "</tool_call>".data

/-- Matching loop of `re.findall(r'<tool_call>(.*?)</tool_call>', text,
re.DOTALL)`: find the leftmost opening marker, then the earliest closing
marker after it (non-greedy), capture the text in between, and continue
after the closing marker.  Structural recursion on a fuel counter; every
successful step consumes at least the two markers, so fuel
`length + 1` is never exhausted before the scan ends. -/
def extractAux (fuel : Nat) (s : List Char) : List (List Char) :=
  match fuel with
  | 0 => []
  | fuel + 1 =>
    match subIndex openTag s with
    | none => []
    | some i =>
      let rest := s.drop (i + openTag.length)
      match subIndex closeTag rest with
      | none => []
      | some j =>
        pyStrip (rest.take j) :: extractAux fuel (rest.drop (j + closeTag.length))

/-- agent.py `extract_tool_calls` (lines 99-103) = server.py lines 110-114:
regex extraction of the delimited blocks, each `.strip()`-ed. -/
def extract_tool_calls (text : String) : List String :=
  (extractAux (text.data.length + 1) text.data).map String.mk

/-- Python `str.replace(pat, rep)` (replace ALL occurrences, scanning left
to right).  Fuel-based structural recursion; `pat` is nonempty at both use
sites (`"get_"`, `"_tools"`), and each replacement step consumes at least
one character, so fuel `length + 1` suffices. -/
def pyReplaceAux (pat rep : List Char) : Nat → List Char → List Char
  | 0, s => s
  | _ + 1, [] => []
  | fuel + 1, c :: rest =>
    if pat.isPrefixOf (c :: rest) then
      rep ++ pyReplaceAux pat rep fuel ((c :: rest).drop pat.length)
    else
      c :: pyReplaceAux pat rep fuel rest

/-- Python `s.replace(pat, rep)` for nonempty `pat`. -/
def pyReplace (s pat rep : String) : String :=
  String.mk (pyReplaceAux pat.data rep.data (s.data.length + 1) s.data)

/-- The category-name computation of agent.py line 152 / slack.py line 228:
`function_name.replace('get_', '').replace('_tools', '')`. -/
def categoryOf (function_name : String) : String :=
  pyReplace (pyReplace function_name "get_" "") "_tools" ""

/-- One step of the per-call loop of agent.py (lines 143-176), at 0-based
position `i` within the batch (`enumerate`).  Returns the updated tool
manager, the interaction-memory entry appended for this call, and the
`"{function_name} result: {result}"` line appended to `tool_results`.
A `json.JSONDecodeError` yields the synthetic `invalid_tool_call_{i+1}`
failure entry; any other exception (`AttributeError` from
`.startswith` on a non-string name, or an exception raised out of
`run_tool`) is caught by the generic handler and yields an
`error_tool_call_{i+1}` entry. -/
def agentStep (env : Env) (parse : String → Option ParsedCall) (i : Nat)
    (tm : ToolManager) (tool_call : String) : ToolManager × MemEntry × String :=
  match parse tool_call with
  | none =>
    (tm,
     .toolCallA ("invalid_tool_call_" ++ toString (i + 1)) tool_call
       "Error: Invalid JSON format in tool call",
     "invalid_tool_call_" ++ toString (i + 1) ++
       " result: Error: Invalid JSON format in tool call")
  | some call_data =>
    match call_data.name.getD (.str ("tool_call_" ++ toString (i + 1))) with
    | .str s =>
      if s.startsWith "get_" && s.endsWith "_tools" then
        let p := load_tools env tm (categoryOf s)
        (p.1, .toolCallA s tool_call p.2, s ++ " result: " ++ p.2)
      else
        match run_tool parse tool_call tm.available_functions with
        | .ok r => (tm, .toolCallA s tool_call r, s ++ " result: " ++ r)
        | .exn e =>
          (tm,
           .toolCallA ("error_tool_call_" ++ toString (i + 1)) tool_call
             ("Error: " ++ e),
           "error_tool_call_" ++ toString (i + 1) ++ " result: Error: " ++ e)
    | _ =>
      (tm,
       .toolCallA ("error_tool_call_" ++ toString (i + 1)) tool_call
         "Error: AttributeError: startswith",
       "error_tool_call_" ++ toString (i + 1) ++
         " result: Error: AttributeError: startswith")

/-- The whole `for i, tool_call in enumerate(tool_calls)` loop of agent.py:
accumulates memory entries and tool-result lines in batch order. -/
def agentProcessCalls (env : Env) (parse : String → Option ParsedCall) :
    Nat → ToolManager → List String → ToolManager × List MemEntry × List String
  | _, tm, [] => (tm, [], [])
  | i, tm, tool_call :: rest =>
    let step := agentStep env parse i tm tool_call
    let next := agentProcessCalls env parse (i + 1) step.1 rest
    (next.1, step.2.1 :: next.2.1, step.2.2 :: next.2.2)

/-- The mutable state of one agent.py turn: the `messages` list, the
interaction memory, and the session tool set. -/
structure AgentLoopState where
  messages : List (String × String)
  memory : List MemEntry
  tm : ToolManager

/-- Whether the inner `while True` loop has exited (final response printed)
or is about to run another iteration. -/
inductive AgentLoopRes where
  | done (st : AgentLoopState) (final : String)
  | running (st : AgentLoopState)

/-- Projection: has the turn finished? -/
def isLoopDone : AgentLoopRes → Bool
  | .done _ _ => true
  | .running _ => false

/-- One iteration of the inner `while True:` loop of agent.py (lines
117-185): invoke the model (`stub`), append the response to memory,
extract tool calls; exit with the final response when there are none,
otherwise execute the batch, append the results to `messages`, and
replace `messages[0]` with the rebuilt system prompt. -/
def agent_turn_step (env : Env) (parse : String → Option ParsedCall)
    (stub : List (String × String) → String) (st : AgentLoopState) : AgentLoopRes :=
  let response := stub st.messages
  let mem1 := st.memory ++ [MemEntry.agentResponse response]
  let tool_calls := extract_tool_calls response
  if tool_calls.isEmpty then
    .done { st with memory := mem1 } response
  else
    let p := agentProcessCalls env parse 0 st.tm tool_calls
    let mem2 := mem1 ++ p.2.1
    let msgs1 := st.messages ++
      [("assistant", response),
       ("human", "Tool results:\n" ++ String.intercalate "\n" p.2.2)]
    let sp := env.create_system_prompt mem2 p.1.available_signatures
    .running { messages := msgs1.set 0 ("system", sp), memory := mem2, tm := p.1 }

/-- Up to `n` iterations of the inner loop.  The source has no such bound:
this fuel exists only so that non-termination can be stated (`running`
after every `n`). -/
def agent_turn_run (env : Env) (parse : String → Option ParsedCall)
    (stub : List (String × String) → String) : Nat → AgentLoopRes → AgentLoopRes
  | 0, r => r
  | _ + 1, .done st f => .done st f
  | n + 1, .running st =>
    agent_turn_run env parse stub n (agent_turn_step env parse stub st)

/-- Claim C1 (the code contradicts it; recorded as a code bug): the inner
model/extract/execute loop of agent.py (`while True:`, line 117; likewise
slack.py line 165) has NO iteration ceiling.  For any model stub whose
every response contains at least one extractable tool-call block, the loop
is still running after every number of iterations — it never terminates at
a configured ceiling with a degraded response. -/
theorem C1_loop_has_no_iteration_ceiling (env : Env)
    (parse : String → Option ParsedCall) (stub : List (String × String) → String)
    (hstub : ∀ ms, extract_tool_calls (stub ms) ≠ []) (n : Nat) (st : AgentLoopState) :
    isLoopDone (agent_turn_run env parse stub n (.running st)) = false := by
  induction n generalizing st with
  | zero => rfl
  | succ n ih =>
    have he : (extract_tool_calls (stub st.messages)).isEmpty = false := by
      cases h : extract_tool_calls (stub st.messages) with
      | nil => exact absurd h (hstub st.messages)
      | cons a l => rfl
    show isLoopDone (agent_turn_run env parse stub n (agent_turn_step env parse stub st)) = false
    rw [agent_turn_step]
    simp only [he, Bool.false_eq_true, if_false]
    exact ih _

/-- A model response that always contains one tool-call block. -/
def constResp : String :=
  "<tool_call>\x7b\"name\": \"get_web_tools\", \"arguments\": \x7b\x7d, \"id\": 1\x7d</tool_call>"

/-- A model stub that re-emits a tool call on every invocation. -/
def stubW : List (String × String) → String := fun _ => constResp

/-- A parse oracle under which no string is valid JSON. -/
def parseNone : String → Option ParsedCall := fun _ => none

/-- An initial turn state for witnesses. -/
def st0 : AgentLoopState := { messages := [], memory := [], tm := initTM envW }

theorem C1_loop_has_no_iteration_ceiling_witness :
    isLoopDone (agent_turn_run envW parseNone stubW 3 (.running st0)) = false :=
  C1_loop_has_no_iteration_ceiling envW parseNone stubW
    (fun _ => by show extract_tool_calls constResp ≠ []; decide) 3 st0

/-- Output of the slack.py per-response tool-call loop: the updated tool
manager, the interaction-memory entries appended, and the
`tool_calls_made` tracking list (name value, arguments value). -/
structure SlackBatchOut where
  tm : ToolManager
  memory : List MemEntry
  tool_calls_made : List (PyVal × PyVal)

/-- The `for tool_call_str in tool_calls:` loop of slack.py (lines
210-259).  Only `json.JSONDecodeError` is caught (and `continue`s WITHOUT
recording anything); any other exception — `AttributeError` from
`.startswith` on a non-string name, or an exception raised out of
`run_tool` (missing `name`/`arguments` key, unhashable name) — propagates
and aborts the whole turn (modelled by `Except.error`), to be caught by
the outer handler of `stream_slack_response`. -/
def slackProcessCalls (env : Env) (parse : String → Option ParsedCall) :
    ToolManager → List String → Except String SlackBatchOut
  | tm, [] => .ok ⟨tm, [], []⟩
  | tm, tool_call :: rest =>
    match parse tool_call with
    | none => slackProcessCalls env parse tm rest
    | some tc =>
      let args := tc.arguments.getD (.obj [])
      match tc.name.getD (.str "unknown") with
      | .str s =>
        if s.startsWith "get_" && s.endsWith "_tools" then
          let p := load_tools env tm (categoryOf s)
          match slackProcessCalls env parse p.1 rest with
          | .ok out =>
            .ok ⟨out.tm, .toolCallS s p.2 :: out.memory,
                 (PyVal.str s, args) :: out.tool_calls_made⟩
          | .error e => .error e
        else
          match run_tool parse tool_call tm.available_functions with
          | .ok r =>
            match slackProcessCalls env parse tm rest with
            | .ok out =>
              .ok ⟨out.tm, .toolCallS s r :: out.memory,
                   (PyVal.str s, args) :: out.tool_calls_made⟩
            | .error e => .error e
          | .exn e => .error e
      | _ => .error "AttributeError: startswith"

/-- A well-formed tool call whose function is available. -/
def goodC2 : String := "\x7b\"name\": \"x\", \"arguments\": \x7b\x7d\x7d"

/-- A tool-call block whose content is not valid JSON. -/
def badC2 : String := "\x7bnot json"

/-- Parse oracle: `goodC2` decodes, everything else (in particular
`badC2`) raises `json.JSONDecodeError`. -/
def parseC2 : String → Option ParsedCall := fun s =>
  if s = goodC2 then
    some { name := some (PyVal.str "x"), arguments := some (PyVal.obj []) }
  else none

/-- Environment whose bootstrap function list contains the callable `x`. -/
def envC2 : Env :=
  { envW with meta_tool_functions := [("x", fun _ => PyResult.ok "done")] }

/-- Claim C2 counterexample: in the slack.py loop, a malformed (non-JSON)
block at position 1 of 2 yields NO synthetic failure outcome and NO
interaction-memory entry at all — the loop `continue`s silently — while
the sibling block still executes.  The resulting memory holds exactly one
entry (the sibling's), not a failure record for the malformed block. -/
theorem C2_counterexample :
    (slackProcessCalls envC2 parseC2 (initTM envC2) [badC2, goodC2]).toOption.map
        SlackBatchOut.memory =
      some [MemEntry.toolCallS "x" "done"] := by
  rfl

/-- Helper: the agent.py loop records exactly one memory entry per
extracted block. -/
theorem agentProcessCalls_length (env : Env) (parse : String → Option ParsedCall) :
    ∀ (calls : List String) (i : Nat) (tm : ToolManager),
      (agentProcessCalls env parse i tm calls).2.1.length = calls.length := by
  intro calls
  induction calls with
  | nil => intro i tm; rfl
  | cons c rest ih => intro i tm; simp [agentProcessCalls, ih]

/-- Helper: in the agent.py loop a block that fails to parse yields, at its
own position, the synthetic `invalid_tool_call_{i+1}` failure entry. -/
theorem agentProcessCalls_malformed (env : Env) (parse : String → Option ParsedCall) :
    ∀ (calls : List String) (i j : Nat) (tm : ToolManager),
      j < calls.length → parse (calls.getD j "") = none →
      (agentProcessCalls env parse i tm calls).2.1.getD j (.agentResponse "") =
        .toolCallA ("invalid_tool_call_" ++ toString (i + j + 1)) (calls.getD j "")
          "Error: Invalid JSON format in tool call" := by
  intro calls
  induction calls with
  | nil => intro i j tm hj hp; exact absurd hj (by simp)
  | cons c rest ih =>
    intro i j tm hj hp
    cases j with
    | zero =>
      replace hp : parse c = none := by simpa using hp
      simp [agentProcessCalls, agentStep, hp]
    | succ j =>
      replace hp : parse (rest.getD j "") = none := by simpa using hp
      have hj2 : j < rest.length := by simpa [Nat.succ_lt_succ_iff] using hj
      have hrec := ih (i + 1) j (agentStep env parse i tm c).1 hj2 hp
      have harith : i + 1 + j + 1 = i + (j + 1) + 1 := by omega
      rw [harith] at hrec
      simpa [agentProcessCalls] using hrec

/-- Helper: when every block that parses at all is protocol-conformant
(string name, arguments present), the slack.py loop finishes the whole
batch without aborting, and records exactly one memory entry per
successfully-parsed block — none for the malformed ones. -/
theorem slackProcessCalls_ok (env : Env) (parse : String → Option ParsedCall) :
    ∀ (calls : List String) (tm : ToolManager),
      (∀ s tc, s ∈ calls → parse s = some tc →
        ∃ nm argsv, tc.name = some (PyVal.str nm) ∧ tc.arguments = some argsv) →
      ∃ out, slackProcessCalls env parse tm calls = .ok out ∧
        out.memory.length = calls.countP (fun s => (parse s).isSome) := by
  intro calls
  induction calls with
  | nil =>
    intro tm _
    exact ⟨⟨tm, [], []⟩, rfl, by simp⟩
  | cons c rest ih =>
    intro tm hclean
    have hrest : ∀ s tc, s ∈ rest → parse s = some tc →
        ∃ nm argsv, tc.name = some (PyVal.str nm) ∧ tc.arguments = some argsv :=
      fun s tc hs => hclean s tc (List.mem_cons_of_mem _ hs)
    cases hp : parse c with
    | none =>
      obtain ⟨out, hout, hlen⟩ := ih tm hrest
      refine ⟨out, ?_, ?_⟩
      · simp only [slackProcessCalls, hp]
        exact hout
      · rw [hlen, List.countP_cons]
        simp [hp]
    | some tc =>
      obtain ⟨nm, argsv, hnm, hargs⟩ := hclean c tc (List.mem_cons_self _ _) hp
      by_cases hmeta : (nm.startsWith "get_" && nm.endsWith "_tools") = true
      · obtain ⟨out, hout, hlen⟩ := ih (load_tools env tm (categoryOf nm)).1 hrest
        refine ⟨⟨out.tm,
          .toolCallS nm (load_tools env tm (categoryOf nm)).2 :: out.memory,
          (PyVal.str nm, argsv) :: out.tool_calls_made⟩, ?_, ?_⟩
        · simp only [slackProcessCalls, hp, hnm, hargs, Option.getD_some, hmeta,
            if_true, hout]
        · simp only [List.length_cons, hlen, List.countP_cons, hp, Option.isSome_some,
            if_pos]
      · obtain ⟨r, hr⟩ := run_tool_ok parse c tm.available_functions tc
          (PyVal.str nm) argsv hp hnm hargs rfl
        obtain ⟨out, hout, hlen⟩ := ih tm hrest
        refine ⟨⟨out.tm, .toolCallS nm r :: out.memory,
          (PyVal.str nm, argsv) :: out.tool_calls_made⟩, ?_, ?_⟩
        · simp only [slackProcessCalls, hp, hnm, hargs, Option.getD_some]
          rw [if_neg hmeta, hr, hout]
        · simp only [List.length_cons, hlen, List.countP_cons, hp, Option.isSome_some,
            if_pos]

/-- Claim C2 (amended): blocks extracted from one model response are
processed independently and siblings of a malformed block always still
execute, but the synthetic failure outcome recorded in interaction memory
exists only in the CLI loop (agent.py): there, every block yields exactly
one memory entry and a non-JSON block at position `j` yields the
`invalid_tool_call_{j+1}` failure entry.  In the Slack loop (slack.py) a
malformed block is skipped silently — the batch (under protocol-conformant
parsed siblings) completes with exactly one memory entry per
successfully-parsed block and none for malformed ones. -/
theorem C2_malformed_block_isolation (env : Env)
    (parse : String → Option ParsedCall) (tm : ToolManager) (calls : List String)
    (hclean : ∀ s tc, s ∈ calls → parse s = some tc →
      ∃ nm argsv, tc.name = some (PyVal.str nm) ∧ tc.arguments = some argsv) :
    ((agentProcessCalls env parse 0 tm calls).2.1.length = calls.length ∧
     ∀ j, j < calls.length → parse (calls.getD j "") = none →
       (agentProcessCalls env parse 0 tm calls).2.1.getD j (.agentResponse "") =
         .toolCallA ("invalid_tool_call_" ++ toString (j + 1)) (calls.getD j "")
           "Error: Invalid JSON format in tool call") ∧
    (∃ out, slackProcessCalls env parse tm calls = .ok out ∧
       out.memory.length = calls.countP (fun s => (parse s).isSome)) := by
  refine ⟨⟨agentProcessCalls_length env parse calls 0 tm, fun j hj hp => ?_⟩,
    slackProcessCalls_ok env parse calls tm hclean⟩
  have hrec := agentProcessCalls_malformed env parse calls 0 j tm hj hp
  simpa using hrec

theorem C2_malformed_block_isolation_witness :
    ((agentProcessCalls envW parseNone 0 (initTM envW) ["a"]).2.1.getD 0
        (.agentResponse "") =
      .toolCallA "invalid_tool_call_1" "a" "Error: Invalid JSON format in tool call") ∧
    ∃ out, slackProcessCalls envW parseNone (initTM envW) ["a"] = .ok out ∧
      out.memory.length = 0 := by
  have h := C2_malformed_block_isolation envW parseNone (initTM envW) ["a"]
    (by intro s tc _ hp; simp [parseNone] at hp)
  refine ⟨?_, ?_⟩
  · have h2 := h.1.2 0 (by decide) rfl
    simpa using h2
  · obtain ⟨out, ho, hl⟩ := h.2
    exact ⟨out, ho, hl.trans rfl⟩

/-- server.py lines 164-173: the dedup set update.  `set.add(event_id)`
followed by the cap check `if len(s) > 1000: s = set(list(s)[-500:])`.
The set's membership content is modelled by its insertion-order list of
distinct keys; `list()` of a Python set enumerates in an arbitrary,
hash-bucket-dependent (and, for strings, per-process randomized) order,
modelled by the enumeration oracle `order`, constrained in theorems to
produce a permutation of the set's elements. -/
def dedupInsert {K : Type} [DecidableEq K] (order : List K → List K)
    (s : List K) (k : K) : List K :=
  let s1 := if k ∈ s then s else s ++ [k]
  if 1000 < s1.length then (order s1).drop ((order s1).length - 500) else s1

/-- Inserting a whole sequence of event keys in order, starting from the
empty set (fresh process). -/
def insertAllKeys {K : Type} [DecidableEq K] (order : List K → List K)
    (keys : List K) : List K :=
  keys.foldl (dedupInsert order) []

/-- Helper: as long as the capacity is not exceeded, inserting distinct
fresh keys just appends them (no eviction fires). -/
theorem dedup_fold_append {K : Type} [DecidableEq K] (order : List K → List K) :
    ∀ (keys s : List K), (s ++ keys).length ≤ 1000 → (∀ k ∈ keys, k ∉ s) →
      keys.Nodup → List.foldl (dedupInsert order) s keys = s ++ keys := by
  intro keys
  induction keys with
  | nil => intro s _ _ _; simp
  | cons k rest ih =>
    intro s hlen hdisj hnd
    have hk : k ∉ s := hdisj k (List.mem_cons_self _ _)
    have hlen2 : (s ++ [k]).length ≤ 1000 := by
      simp only [List.length_append, List.length_cons, List.length_nil] at hlen ⊢
      omega
    have hstep : dedupInsert order s k = s ++ [k] := by
      simp only [dedupInsert, if_neg hk]
      rw [if_neg (by omega)]
    rw [List.foldl_cons, hstep,
      ih (s ++ [k]) (by simpa using hlen) ?_ hnd.of_cons]
    · simp
    · intro x hx
      simp only [List.mem_append, List.mem_singleton]
      rintro (h | rfl)
      · exact hdisj x (List.mem_cons_of_mem _ hx) h
      · exact (List.nodup_cons.mp hnd).1 hx

/-- Helper: one dedup update keeps the set inside any superset of its
inputs and never leaves more than 1000 keys behind. -/
theorem dedupInsert_subset_length {K : Type} [DecidableEq K]
    (order : List K → List K) (hord : ∀ l : List K, (order l).Perm l)
    (s : List K) (k : K) (A : List K) (hs : s ⊆ A) (hk : k ∈ A)
    (hlen : s.length ≤ 1000) :
    dedupInsert order s k ⊆ A ∧ (dedupInsert order s k).length ≤ 1000 := by
  simp only [dedupInsert]
  have hsub1 : (if k ∈ s then s else s ++ [k]) ⊆ A := by
    split
    · exact hs
    · intro x hx
      rcases List.mem_append.mp hx with h | h
      · exact hs h
      · rw [List.mem_singleton.mp h]; exact hk
  have hlen1 : (if k ∈ s then s else s ++ [k]).length ≤ 1001 := by
    split
    · omega
    · simp only [List.length_append, List.length_singleton]; omega
  by_cases hbig : 1000 < (if k ∈ s then s else s ++ [k]).length
  · rw [if_pos hbig]
    refine ⟨fun x hx => hsub1 ((hord _).subset (List.drop_subset _ _ hx)), ?_⟩
    rw [List.length_drop, (hord _).length_eq]
    omega
  · rw [if_neg hbig]
    exact ⟨hsub1, by omega⟩

/-- Helper: the full insertion fold keeps only previously inserted keys and
respects the capacity bound. -/
theorem dedup_fold_bounded {K : Type} [DecidableEq K]
    (order : List K → List K) (hord : ∀ l : List K, (order l).Perm l) :
    ∀ (keys s A : List K), s ⊆ A → keys ⊆ A → s.length ≤ 1000 →
      List.foldl (dedupInsert order) s keys ⊆ A ∧
        (List.foldl (dedupInsert order) s keys).length ≤ 1000 := by
  intro keys
  induction keys with
  | nil => intro s A hs _ hlen; exact ⟨hs, hlen⟩
  | cons k rest ih =>
    intro s A hs hkeys hlen
    have hk : k ∈ A := hkeys (List.mem_cons_self _ _)
    obtain ⟨h1, h2⟩ := dedupInsert_subset_length order hord s k A hs hk hlen
    rw [List.foldl_cons]
    exact ih (dedupInsert order s k) A h1
      (fun x hx => hkeys (List.mem_cons_of_mem _ hx)) h2

/-- Claim C5 counterexample: eviction is NOT oldest-first.  Insert the 1001
distinct keys `0,...,1000` in order; under the legitimate set-enumeration
order that lists the elements newest-first (`List.reverse` of the
insertion order — shown to be a permutation), the MOST RECENTLY inserted
key `1000` — which lies among the newest 500 keys of the sequence — is
evicted by `set(list(s)[-500:])` and is no longer queryable as seen. -/
theorem C5_counterexample :
    (List.range 1001).Nodup ∧ 1000 < (List.range 1001).length ∧
    1000 ∈ (List.range 1001).drop ((List.range 1001).length - 500) ∧
    (∀ l : List Nat, (List.reverse l).Perm l) ∧
    1000 ∉ insertAllKeys List.reverse (List.range 1001) := by
  refine ⟨List.nodup_range _, by simp, by decide, fun l => List.reverse_perm l, ?_⟩
  have hsub : List.foldl (dedupInsert List.reverse) ([] : List Nat)
      (List.range 1000) = List.range 1000 := by
    have h := dedup_fold_append List.reverse (List.range 1000) []
      (by simp) (by simp) (List.nodup_range _)
    simpa using h
  unfold insertAllKeys
  rw [List.range_succ, List.foldl_append, hsub]
  show 1000 ∉ dedupInsert List.reverse (List.range 1000) 1000
  decide

/-- Claim C5 (amended): eviction keeps an arbitrary, enumeration-order
dependent subset, not the newest keys.  For every enumeration oracle that
permutes the set and every key sequence: the surviving keys are all
previously inserted ones, the set never exceeds the capacity of 1000
after an insertion, and inserting 1001 distinct keys cuts the set down to
exactly 500 surviving keys (which 500 depends on the enumeration order). -/
theorem C5_eviction_keeps_arbitrary_500 {K : Type} [DecidableEq K]
    (order : List K → List K) (hord : ∀ l : List K, (order l).Perm l)
    (keys : List K) :
    insertAllKeys order keys ⊆ keys ∧ (insertAllKeys order keys).length ≤ 1000 ∧
    (keys.Nodup → keys.length = 1001 → (insertAllKeys order keys).length = 500) := by
  obtain ⟨hsub, hlen⟩ := dedup_fold_bounded order hord keys [] keys
    (by simp) (fun x hx => hx) (by simp)
  refine ⟨hsub, hlen, fun hnd hlen1001 => ?_⟩
  have hsplit : keys.take 1000 ++ keys.drop 1000 = keys := List.take_append_drop _ _
  have hlentake : (keys.take 1000).length = 1000 := by
    rw [List.length_take]; omega
  have hlendrop : (keys.drop 1000).length = 1 := by
    rw [List.length_drop]; omega
  obtain ⟨k, hk⟩ := List.length_eq_one.mp hlendrop
  have hndsplit : (keys.take 1000 ++ [k]).Nodup := by
    rw [← hk, hsplit]; exact hnd
  have hkfresh : k ∉ keys.take 1000 := by
    have := List.disjoint_of_nodup_append hndsplit
    intro hmem
    exact this hmem (List.mem_singleton_self k)
  have hfold : List.foldl (dedupInsert order) ([] : List K) (keys.take 1000) =
      keys.take 1000 := by
    have h := dedup_fold_append order (keys.take 1000) []
      (by simp [hlentake]) (by simp) (hnd.sublist (List.take_sublist _ _))
    simpa using h
  unfold insertAllKeys
  rw [← hsplit, hk, List.foldl_append, hfold]
  show (dedupInsert order (keys.take 1000) k).length = 500
  have hmem1001 : ¬ 1000 < (keys.take 1000).length := by omega
  simp only [dedupInsert, if_neg hkfresh]
  have hlen1 : (keys.take 1000 ++ [k]).length = 1001 := by
    simp [hlentake]
  rw [if_pos (by omega), List.length_drop, (hord _).length_eq, hlen1]

theorem C5_eviction_keeps_arbitrary_500_witness :
    insertAllKeys List.reverse [7] ⊆ [7] ∧
    (insertAllKeys List.reverse [7]).length ≤ 1000 ∧
    (([7] : List Nat).Nodup → ([7] : List Nat).length = 1001 →
      (insertAllKeys List.reverse [7]).length = 500) :=
  C5_eviction_keeps_arbitrary_500 List.reverse (fun l => List.reverse_perm l) [7]

/-- The fields of the Slack event object that server.py reads, each via
`event.get(...)` (so each may be absent). -/
structure SlackEvent where
  type : Option String
  bot_id : Option String
  subtype : Option String
  ts : Option String
  channel : Option String
  user : Option String
  text : Option String
  thread_ts : Option String

/-- The webhook envelope: `body.get("type")`, `body.get("challenge")`,
`body.get("event", {})`. -/
structure Envelope where
  type : Option String
  challenge : Option String
  event : Option SlackEvent

/-- Python truthiness of `event.get("bot_id")`: the key is present and its
value is a non-empty string. -/
def pyTruthy : Option String → Bool
  | none => false
  | some s => s != ""

/-- server.py lines 156-158: the dedup key
`f"{ts}_{channel}_{user}_{text_hash}"`; the md5-based 8-hex-digit
`text_hash` is modelled by the hash oracle `textHash`. -/
def event_id (textHash : String → String) (e : SlackEvent) : String :=
  e.ts.getD "" ++ "_" ++ e.channel.getD "" ++ "_" ++ e.user.getD "" ++ "_" ++
    textHash (e.text.getD "")

/-- slack.py-bound mention cleanup (server.py line 179):
`message_text.split('>', 1)[-1].strip()`. -/
def stripMention (text : String) : String :=
  match subIndex ['>'] text.data with
  | some i => String.mk (pyStrip (text.data.drop (i + 1)))
  | none => String.mk (pyStrip text.data)

/-- The HTTP-level outcome of one `/slack/events` request. -/
inductive HandlerRes where
  | challengeRes (c : Option String)
  | okRes
  | httpError (code : Nat)
deriving DecidableEq

/-- The arguments with which `stream_slack_response` (one Orchestrator
turn) is started. -/
structure TurnStart where
  channel : Option String
  message_text : String
  thread_ts : Option String
  user : Option String
deriving DecidableEq

/-- Result of one delivery: HTTP response, dedup set afterwards, and the
turn started (if any). -/
structure HandlerOut where
  res : HandlerRes
  state : List String
  turn : Option TurnStart
deriving DecidableEq

/-- server.py `slack_events` (lines 130-188).  `body = none` models a
request on which `await request.json()` raises (non-JSON body); the
surrounding `try/except` then raises `HTTPException(status_code=400)`.
With a decoded body the handler is total: unknown envelope types fall
through to `{"status": "ok"}`. -/
def slack_events (textHash : String → String) (order : List String → List String)
    (body : Option Envelope) (st : List String) : HandlerOut :=
  match body with
  | none => ⟨.httpError 400, st, none⟩
  | some b =>
    if b.type = some "url_verification" then ⟨.challengeRes b.challenge, st, none⟩
    else if b.type = some "event_callback" then
      let e := b.event.getD ⟨none, none, none, none, none, none, none, none⟩
      if pyTruthy e.bot_id then ⟨.okRes, st, none⟩
      else if (e.type = some "message" ∨ e.type = some "app_mention") ∧
          e.subtype = none then
        if event_id textHash e ∈ st then ⟨.okRes, st, none⟩
        else
          let st1 := dedupInsert order st (event_id textHash e)
          let message_text :=
            if e.type = some "app_mention" then stripMention (e.text.getD "")
            else e.text.getD ""
          if message_text ≠ "" then
            ⟨.okRes, st1, some ⟨e.channel, message_text, e.thread_ts, e.user⟩⟩
          else ⟨.okRes, st1, none⟩
      else ⟨.okRes, st, none⟩
    else ⟨.okRes, st, none⟩

/-- A concrete hash oracle for witnesses and counterexamples. -/
def thW : String → String := fun _ => "h"

/-- Claim C9 counterexample: a request whose body is not valid JSON is
answered with `HTTPException(status_code=400)` — an error surfaced to the
caller — not acknowledged as a no-op success. -/
theorem C9_counterexample :
    slack_events thW List.reverse none [] =
      ⟨HandlerRes.httpError 400, [], none⟩ ∧
    (slack_events thW List.reverse none []).res ≠ HandlerRes.okRes := by
  exact ⟨rfl, by decide⟩

/-- Claim C9 (amended): an event envelope that decodes as JSON but is
otherwise malformed (unrecognized or missing `type`) is acknowledged as a
no-op `{"status": "ok"}` with no turn started; but a request body that is
not valid JSON at all makes the handler raise `HTTPException` 400 to the
caller rather than acknowledging it. -/
theorem C9_ingress_errors (textHash : String → String)
    (order : List String → List String) (st : List String) :
    (∀ b : Envelope, b.type ≠ some "url_verification" →
      b.type ≠ some "event_callback" →
      slack_events textHash order (some b) st = ⟨.okRes, st, none⟩) ∧
    slack_events textHash order none st = ⟨.httpError 400, st, none⟩ := by
  refine ⟨fun b h1 h2 => ?_, rfl⟩
  simp only [slack_events, if_neg h1, if_neg h2]

theorem C9_ingress_errors_witness :
    slack_events thW List.reverse (some ⟨some "garbage", none, none⟩) [] =
      ⟨HandlerRes.okRes, [], none⟩ :=
  (C9_ingress_errors thW List.reverse []).1 ⟨some "garbage", none, none⟩
    (by decide) (by decide)

/-- The dedup key recorded for the n-th of 1000 prior distinct events
(distinct `ts` values, same channel/user/text-hash). -/
def keyPre (n : Nat) : String := Nat.repr n ++ "_c_u_h"

/-- A dedup-set state holding 1000 distinct keys, as reached after 1000
prior deliveries of pairwise-distinct events. -/
def stPre : List String := (List.range 1000).map keyPre

/-- The repeated event envelope: a plain user message. -/
def eDup : SlackEvent :=
  ⟨some "message", none, none, some "x", some "c", some "u", some "t", none⟩

/-- Its `event_callback` envelope. -/
def bodyDup : Envelope := ⟨some "event_callback", none, some eDup⟩

/-- Claim C6 counterexample: with the dedup set at its capacity of 1000
keys, delivering the same envelope twice starts TWO Orchestrator turns.
The first delivery's insertion overflows the 1000-key cap, and
`set(list(s)[-500:])` under a newest-first set-enumeration order evicts
the just-recorded key, so the second, identical delivery is not
recognized as seen and starts a second turn. -/
theorem C6_counterexample :
    stPre.length = 1000 ∧
    (slack_events thW List.reverse (some bodyDup) stPre).turn.isSome = true ∧
    (slack_events thW List.reverse (some bodyDup)
        (slack_events thW List.reverse (some bodyDup) stPre).state).turn.isSome =
      true := by
  refine ⟨by simp [stPre], by decide, by decide⟩

/-- Claim C6 (amended): provided no eviction can fire between the two
deliveries — in particular whenever the dedup set holds fewer than 1000
keys when the first copy arrives — delivering the same well-formed
envelope twice starts exactly one Orchestrator turn: the first delivery
records the derived key and starts the turn, and the second is recognized
via that key and acknowledged `ok` without starting a turn. -/
theorem C6_dedup_idempotent_below_capacity (textHash : String → String)
    (order : List String → List String) (b : Envelope) (e : SlackEvent)
    (st : List String)
    (htype : b.type = some "event_callback") (hev : b.event = some e)
    (hbot : pyTruthy e.bot_id = false)
    (hetype : e.type = some "message" ∨ e.type = some "app_mention")
    (hsub : e.subtype = none)
    (htext : (if e.type = some "app_mention" then stripMention (e.text.getD "")
      else e.text.getD "") ≠ "")
    (hfresh : event_id textHash e ∉ st) (hcap : st.length < 1000) :
    slack_events textHash order (some b) st =
      ⟨.okRes, st ++ [event_id textHash e],
       some ⟨e.channel,
         (if e.type = some "app_mention" then stripMention (e.text.getD "")
          else e.text.getD ""), e.thread_ts, e.user⟩⟩ ∧
    slack_events textHash order (some b) (st ++ [event_id textHash e]) =
      ⟨.okRes, st ++ [event_id textHash e], none⟩ := by
  have hne : b.type ≠ some "url_verification" := by rw [htype]; simp
  have hins : dedupInsert order st (event_id textHash e) =
      st ++ [event_id textHash e] := by
    simp only [dedupInsert, if_neg hfresh]
    rw [if_neg]
    simp only [List.length_append, List.length_cons, List.length_nil]
    omega
  constructor
  · simp only [slack_events, if_neg hne, if_pos htype, hev, Option.getD_some, hbot,
      Bool.false_eq_true, if_false, if_pos (And.intro hetype hsub), if_neg hfresh,
      hins, if_pos htext]
  · have hmem : event_id textHash e ∈ st ++ [event_id textHash e] :=
      List.mem_append_right _ (List.mem_singleton_self _)
    simp only [slack_events, if_neg hne, if_pos htype, hev, Option.getD_some, hbot,
      Bool.false_eq_true, if_false, if_pos (And.intro hetype hsub), if_pos hmem]

theorem C6_dedup_idempotent_below_capacity_witness :
    slack_events thW List.reverse (some bodyDup) [] =
      ⟨HandlerRes.okRes, ["x_c_u_h"],
       some ⟨some "c", "t", none, some "u"⟩⟩ ∧
    slack_events thW List.reverse (some bodyDup) ["x_c_u_h"] =
      ⟨HandlerRes.okRes, ["x_c_u_h"], none⟩ := by
  have h := C6_dedup_idempotent_below_capacity thW List.reverse bodyDup eDup []
    rfl rfl rfl (Or.inl rfl) rfl (by decide) (by decide) (by decide)
  simpa using h

/-- Python string `a < b`: lexicographic comparison by code point. -/
def pyLt : List Char → List Char → Bool
  | [], [] => false
  | [], _ :: _ => true
  | _ :: _, [] => false
  | a :: as, b :: bs => if a < b then true else if b < a then false else pyLt as bs

/-- Python string `a <= b`: lexicographic comparison by code point. -/
def pyLe : List Char → List Char → Bool
  | [], _ => true
  | _ :: _, [] => false
  | a :: as, b :: bs => if a < b then true else if b < a then false else pyLe as bs

/-- Helper: Python's string comparison is total: `a <= b` iff not `b < a`. -/
theorem pyLe_eq_not_pyLt : ∀ as bs, pyLe as bs = ! pyLt bs as := by
  intro as
  induction as with
  | nil => intro bs; cases bs <;> rfl
  | cons a as ih =>
    intro bs
    cases bs with
    | nil => rfl
    | cons b bs =>
      simp only [pyLe, pyLt]
      by_cases h1 : a < b
      · simp [h1, lt_asymm h1]
      · by_cases h2 : b < a
        · simp [h1, h2]
        · simp [h1, h2, ih bs]

/-- A recorded tool call inside a stored conversation message: its
`function_name` field if present.  (Entries written by the slack.py loop
use the key `function` instead, so there the field is absent and the
formatter falls back to `"unknown"`.) -/
abbrev ToolCallRec := Option String

/-- user_manager.py `new_message` (lines 83-91): one stored conversation
message. -/
structure ConvMessage where
  timestamp : String
  message_type : String
  content : String
  channel : String
  thread_ts : String
  tool_calls : List ToolCallRec
  tokens_used : Nat
deriving DecidableEq

/-- The DynamoDB table: `user_email` key → the item's
`conversation_history` list.  Keys are unique (primary key). -/
def Store : Type := List (String × List ConvMessage)

/-- `table.get_item(Key={'user_email': email})` followed by
`item.get('conversation_history', [])` (`none` = no item). -/
def tableGet : Store → String → Option (List ConvMessage)
  | [], _ => none
  | p :: rest, email => if p.1 = email then some p.2 else tableGet rest email

/-- `table.update_item(Key=..., SET conversation_history = ...)`: replace
the keyed item's list, creating the item when absent. -/
def tableSet : Store → String → List ConvMessage → Store
  | [], email, h => [(email, h)]
  | p :: rest, email, h =>
    if p.1 = email then (email, h) :: rest else p :: tableSet rest email h

/-- Helper: reading back the identity just written. -/
theorem tableGet_tableSet_same (st : Store) (email : String)
    (h : List ConvMessage) : tableGet (tableSet st email h) email = some h := by
  induction st with
  | nil => simp [tableSet, tableGet]
  | cons p rest ih =>
    by_cases hp : p.1 = email
    · simp [tableSet, tableGet, hp]
    · simp [tableSet, tableGet, hp, ih]

/-- Helper: writing one identity leaves every other identity's list
untouched. -/
theorem tableGet_tableSet_other (st : Store) (email e : String)
    (h : List ConvMessage) (hne : e ≠ email) :
    tableGet (tableSet st email h) e = tableGet st e := by
  induction st with
  | nil => simp [tableSet, tableGet, Ne.symm hne]
  | cons p rest ih =>
    by_cases hp : p.1 = email
    · simp [tableSet, tableGet, hp, Ne.symm hne]
    · simp [tableSet, tableGet, hp, ih]

/-- Python `h[-limit:]` for a natural `limit`.  Beware `h[-0:] = h[0:]`:
for `limit = 0` the whole list is returned. -/
def pySliceLast (h : List ConvMessage) (limit : Nat) : List ConvMessage :=
  if limit = 0 then h else h.drop (h.length - limit)

/-- user_manager.py `get_conversation_history` (lines 29-60): the most
recent `limit` entries in stored order
(`conversation_history[-limit:] if len(conversation_history) > limit
else conversation_history`); missing item → `[]`. -/
def get_conversation_history (st : Store) (email : String) (limit : Nat) :
    List ConvMessage :=
  match tableGet st email with
  | none => []
  | some conversation_history =>
    if limit < conversation_history.length then
      pySliceLast conversation_history limit
    else conversation_history

/-- The filter predicate of user_manager.py line 177:
`msg.get('timestamp', '') >= cutoff_timestamp` (Python string
comparison). -/
def keepMsg (cutoff : String) (msg : ConvMessage) : Bool :=
  pyLe cutoff.data msg.timestamp.data

/-- user_manager.py `cleanup_old_conversations` (lines 148-200), with the
cutoff timestamp (derived in the source from `datetime.now`) as a
parameter.  Keeps exactly the messages with `timestamp >= cutoff`, writes
back only when something was removed, and returns the boolean the source
returns (`True`; backend exceptions are outside the model). -/
def cleanup_old_conversations (st : Store) (email cutoff_timestamp : String) :
    Store × Bool :=
  match tableGet st email with
  | none => (st, true)
  | some conversation_history =>
    let filtered_history := conversation_history.filter (keepMsg cutoff_timestamp)
    let old_count := conversation_history.length - filtered_history.length
    if 0 < old_count then (tableSet st email filtered_history, true)
    else (st, true)

/-- The `old_count` quantity computed (and only logged) by
`cleanup_old_conversations`. -/
def countRemoved (st : Store) (email cutoff : String) : Nat :=
  match tableGet st email with
  | none => 0
  | some h => h.length - (h.filter (keepMsg cutoff)).length

/-- A stored message with a given timestamp (other fields fixed). -/
def mTs (ts : String) : ConvMessage := ⟨ts, "user", "m", "c", "", [], 0⟩

/-- A store in which pruning at cutoff `"c"` removes two messages. -/
def st7a : Store := [("u", [mTs "a", mTs "b", mTs "z"])]

/-- A store in which pruning at cutoff `"c"` removes one message. -/
def st7b : Store := [("u", [mTs "b", mTs "z"])]

/-- Claim C7 counterexample: the prune operation does NOT return the count
of messages removed — it returns the boolean `True` regardless.  Two runs
that remove different numbers of messages (2 and 1) both return `True`,
so the return value cannot be the count. -/
theorem C7_counterexample :
    countRemoved st7a "u" "c" = 2 ∧ countRemoved st7b "u" "c" = 1 ∧
    (cleanup_old_conversations st7a "u" "c").2 = true ∧
    (cleanup_old_conversations st7b "u" "c").2 = true := by
  refine ⟨by decide, by decide, by decide, by decide⟩

/-- Claim C7 (amended): prune removes exactly the stored messages whose
timestamp is strictly older (Python string comparison) than the cutoff,
leaves the surviving messages and every other identity's list unchanged —
but it returns the boolean `True` (the count removed is only logged). -/
theorem C7_prune_filters_strictly_older (st : Store) (email cutoff : String) :
    (cleanup_old_conversations st email cutoff).2 = true ∧
    tableGet (cleanup_old_conversations st email cutoff).1 email =
      (tableGet st email).map (List.filter (keepMsg cutoff)) ∧
    (∀ e, e ≠ email →
      tableGet (cleanup_old_conversations st email cutoff).1 e = tableGet st e) ∧
    (∀ h, tableGet st email = some h → ∀ m,
      (m ∈ h.filter (keepMsg cutoff) ↔
        m ∈ h ∧ pyLt m.timestamp.data cutoff.data = false)) := by
  have hmemchar : ∀ (h : List ConvMessage) (m : ConvMessage),
      m ∈ h.filter (keepMsg cutoff) ↔
        m ∈ h ∧ pyLt m.timestamp.data cutoff.data = false := by
    intro h m
    rw [List.mem_filter]
    constructor
    · rintro ⟨hm, hk⟩
      refine ⟨hm, ?_⟩
      rw [keepMsg, pyLe_eq_not_pyLt] at hk
      simpa using hk
    · rintro ⟨hm, hk⟩
      refine ⟨hm, ?_⟩
      rw [keepMsg, pyLe_eq_not_pyLt, hk]
      rfl
  cases hget : tableGet st email with
  | none =>
    refine ⟨?_, ?_, ?_, ?_⟩
    · simp [cleanup_old_conversations, hget]
    · simp [cleanup_old_conversations, hget]
    · intro e _; simp [cleanup_old_conversations, hget]
    · intro h hh; cases hh
  | some h =>
    by_cases hc : 0 < h.length - (h.filter (keepMsg cutoff)).length
    · refine ⟨?_, ?_, ?_, ?_⟩
      · simp [cleanup_old_conversations, hget, hc]
      · simp only [cleanup_old_conversations, hget, if_pos hc, tableGet_tableSet_same]
        rfl
      · intro e hne
        simp only [cleanup_old_conversations, hget, if_pos hc]
        exact tableGet_tableSet_other st email e _ hne
      · intro h2 hh2 m
        cases hh2
        exact hmemchar h m
    · have hlenle := List.length_filter_le (keepMsg cutoff) h
      have hleneq : (h.filter (keepMsg cutoff)).length = h.length := by omega
      have hfeq : h.filter (keepMsg cutoff) = h :=
        (List.filter_sublist h).eq_of_length hleneq
      refine ⟨?_, ?_, ?_, ?_⟩
      · simp [cleanup_old_conversations, hget, hc]
      · simp only [cleanup_old_conversations, hget, if_neg hc]
        simp [hfeq]
      · intro e _
        simp [cleanup_old_conversations, hget, hc]
      · intro h2 hh2 m
        cases hh2
        exact hmemchar h m

theorem C7_prune_filters_strictly_older_witness :
    tableGet (cleanup_old_conversations st7a "u" "c").1 "u" = some [mTs "z"] ∧
    tableGet (cleanup_old_conversations st7a "u" "c").1 "v" = tableGet st7a "v" ∧
    (mTs "a" ∈ ([mTs "a", mTs "b", mTs "z"].filter (keepMsg "c")) ↔
      mTs "a" ∈ [mTs "a", mTs "b", mTs "z"] ∧
        pyLt (mTs "a").timestamp.data ("c" : String).data = false) := by
  have h := C7_prune_filters_strictly_older st7a "u" "c"
  exact ⟨h.2.1.trans (by decide), h.2.2.1 "v" (by decide),
    h.2.2.2 [mTs "a", mTs "b", mTs "z"] (by decide) (mTs "a")⟩

/-- A one-message store exhibiting the `limit = 0` behaviour. -/
def st8 : Store := [("u", [mTs "2024-01-01T00:00:00"])]

/-- Claim C8 counterexample: for limit `k = 0 < N = 1` the bounded read
does NOT return the last 0 messages: Python `h[-0:]` is `h[0:]`, the whole
list, so all `N` stored messages come back instead of none. -/
theorem C8_counterexample :
    get_conversation_history st8 "u" 0 = [mTs "2024-01-01T00:00:00"] ∧
    get_conversation_history st8 "u" 0 ≠ ([] : List ConvMessage) := by
  exact ⟨by decide, by decide⟩

/-- Claim C8 (amended): for every identity with stored history `h` and
every limit `k` with `1 ≤ k < h.length`, the bounded read returns exactly
the last `k` messages in stored (oldest-first) order; for `k ≥ h.length`
it returns the whole history; and it preserves chronological sortedness of
the stored list (so the result is in chronological order whenever the
store is).  For `k = 0` it returns the whole list — see the
counterexample. -/
theorem C8_bounded_read_returns_suffix (st : Store) (email : String)
    (h : List ConvMessage) (k : Nat) (hh : tableGet st email = some h) :
    (1 ≤ k → k < h.length →
      get_conversation_history st email k = h.drop (h.length - k) ∧
      (get_conversation_history st email k).length = k) ∧
    (h.length ≤ k → get_conversation_history st email k = h) ∧
    (h.Pairwise (fun a b => pyLe a.timestamp.data b.timestamp.data = true) →
      (get_conversation_history st email k).Pairwise
        (fun a b => pyLe a.timestamp.data b.timestamp.data = true)) := by
  refine ⟨fun h1 h2 => ?_, fun hge => ?_, fun hsort => ?_⟩
  · have hres : get_conversation_history st email k = h.drop (h.length - k) := by
      simp only [get_conversation_history, hh, if_pos h2, pySliceLast,
        if_neg (by omega : ¬ k = 0)]
    exact ⟨hres, by rw [hres, List.length_drop]; omega⟩
  · simp only [get_conversation_history, hh, if_neg (by omega : ¬ k < h.length)]
  · simp only [get_conversation_history, hh]
    split
    · simp only [pySliceLast]
      split
      · exact hsort
      · exact hsort.sublist (List.drop_sublist _ _)
    · exact hsort

/-- A three-message store for the bounded-read witness. -/
def st8b : Store := [("u", [mTs "a", mTs "b", mTs "c"])]

theorem C8_bounded_read_returns_suffix_witness :
    get_conversation_history st8b "u" 2 = [mTs "b", mTs "c"] ∧
    get_conversation_history st8b "u" 5 = [mTs "a", mTs "b", mTs "c"] := by
  have h2 := C8_bounded_read_returns_suffix st8b "u" [mTs "a", mTs "b", mTs "c"] 2
    (by decide)
  have h5 := C8_bounded_read_returns_suffix st8b "u" [mTs "a", mTs "b", mTs "c"] 5
    (by decide)
  exact ⟨((h2.1 (by decide) (by decide)).1).trans (by decide), h5.2.1 (by decide)⟩

/-- user_manager.py lines 131-140: the context lines rendered for one
message — the `[timestamp] TYPE: content` line (timestamp truncated to 19
characters, content truncated to 200 with an ellipsis), plus a
`Tools used:` line when the message records tool calls. -/
def msgLines (msg : ConvMessage) : List String :=
  let timestamp := msg.timestamp.take 19
  let mtype := msg.message_type.toUpper
  let content :=
    if 200 < msg.content.length then msg.content.take 200 ++ "..."
    else msg.content
  let line1 := "[" ++ timestamp ++ "] " ++ mtype ++ ": " ++ content
  if msg.tool_calls.isEmpty then [line1]
  else
    [line1,
     "  Tools used: " ++
       String.intercalate ", " (msg.tool_calls.map (fun c => c.getD "unknown"))]

/-- user_manager.py `get_conversation_context` (lines 110-146): fetch the
bounded history (default limit 10) and, when nonempty, render the header
followed by each message's lines, iterating `reversed(history)`, joined
with newlines. -/
def get_conversation_context (st : Store) (email : String) : String :=
  let history := get_conversation_history st email 10
  if history.isEmpty then ""
  else
    String.intercalate "\n"
      ("Recent conversation context:" :: (history.reverse.map msgLines).flatten)

/-- Claim C10: for an identity whose retrieved history holds at least two
messages, the formatted context lists the messages in the REVERSE of the
oldest-first order in which the bounded read returns them: the rendered
blocks are those of `history.reverse`, and whenever the stored history is
chronologically sorted the messages therefore appear newest-first
(pairwise non-increasing timestamps in rendering order). -/
theorem C10_context_reverse_chronological (st : Store) (email : String)
    (hist : List ConvMessage) (hh : get_conversation_history st email 10 = hist)
    (hlen : 2 ≤ hist.length) :
    get_conversation_context st email =
      String.intercalate "\n"
        ("Recent conversation context:" :: (hist.reverse.map msgLines).flatten) ∧
    (hist.Pairwise (fun a b => pyLe a.timestamp.data b.timestamp.data = true) →
      hist.reverse.Pairwise
        (fun a b => pyLe b.timestamp.data a.timestamp.data = true)) := by
  constructor
  · have hne : hist.isEmpty = false := by
      cases hist with
      | nil => simp at hlen
      | cons a l => rfl
    simp only [get_conversation_context, hh, hne, Bool.false_eq_true, if_false]
  · intro hsort
    exact List.pairwise_reverse.mpr hsort

/-- A two-message store for the context-order witness. -/
def st10 : Store := [("u", [mTs "a", mTs "b"])]

theorem C10_context_reverse_chronological_witness :
    get_conversation_context st10 "u" =
      String.intercalate "\n"
        ("Recent conversation context:" ::
          (([mTs "a", mTs "b"] : List ConvMessage).reverse.map msgLines).flatten) ∧
    ([mTs "a", mTs "b"] : List ConvMessage).reverse.Pairwise
      (fun a b => pyLe b.timestamp.data a.timestamp.data = true) := by
  have h := C10_context_reverse_chronological st10 "u" [mTs "a", mTs "b"]
    (by decide) (by decide)
  refine ⟨h.1, h.2 ?_⟩
  decide
